import Mathlib

/-!
Shallow embedding of the parallel strategy execution and comparison
subsystem of `src/execution/ParallelExecutor.ts`.

Modelling conventions:
* JavaScript numbers are embedded as `Rat`; the only place the source
  produces `Infinity` is the `loss` field of the failure sentinel, so
  `loss` uses the two-constructor type `LossVal`.
* Asynchronous delegate calls (`dataAgent.execute`, …) are embedded as
  environment-supplied outcomes: `Except String AgentResult`, where
  `.error msg` models a rejected promise carrying an `Error` with the
  given message and `.ok r` models a fulfilled promise.
* The per-strategy `AbortController`/timeout pair is embedded by
  `StrategyEnv.abortAt`: the abort signal is observed triggered at the
  start-of-phase check of every phase with index `≥ abortAt` (phases are
  indexed 0 = data, 1 = model, 2 = training, 3 = evaluation; any value
  `≥ 4` means the signal never triggers during the run).  This captures
  both the timeout timer and scheduler-driven cancellation, which are
  the only writers of the signal.
* `Math.random()`-based `calculateModelSize` is embedded by the
  environment-supplied draw `StrategyEnv.modelSizeDraw`.
* The `activeExecutions` map (strategy id → controller) is embedded as
  the list of registered strategy ids, threaded through the runner.
-/

namespace AutoML

/-- The four pipeline phases of `ExecutionProgress['phase']`. -/
inductive Phase where
  | data
  | model
  | training
  | evaluation
deriving DecidableEq, Repr

/-- Position of a phase in the fixed pipeline order. -/
def Phase.idx : Phase → Nat
  | .data => 0
  | .model => 1
  | .training => 2
  | .evaluation => 3

/-- The phase label as it appears in progress messages. -/
def Phase.label : Phase → String
  | .data => "data"
  | .model => "model"
  | .training => "training"
  | .evaluation => "evaluation"

/-- `ExecutionProgress['status']`. -/
inductive Status where
  | pending
  | running
  | completed
  | failed
deriving DecidableEq, Repr

/-- A JavaScript number that is either finite or `Infinity`
(the failure sentinel sets `loss: Infinity`). -/
inductive LossVal where
  | val (q : Rat)
  | infinity
deriving DecidableEq, Repr

/-- Payload of a delegated agent call; the orchestrator only ever reads
`accuracy`, `loss`, `trainingTime` and `model` out of it.  The opaque
model handle is embedded as a `Nat`. -/
structure AgentData where
  accuracy : Rat
  loss : LossVal
  trainingTime : Rat
  model : Nat
deriving DecidableEq, Repr

/-- `AgentResult` from `../types`: a `success` flag plus a payload. -/
structure AgentResult where
  success : Bool
  data : AgentData
deriving DecidableEq, Repr

/-- The fields of `OptimizationPlan` the orchestration core reads.
The nested model/training configuration blocks are only forwarded
opaquely into delegate task payloads, which the environment abstracts. -/
structure OptimizationPlan where
  strategyId : String
  name : String
  approach : String
deriving DecidableEq, Repr

/-- `ExecutionProgress` events published on the progress channel. -/
structure ExecutionProgress where
  strategyId : String
  phase : Phase
  progress : Nat
  status : Status
  message : String
  metrics : Option AgentData
deriving DecidableEq, Repr

/-- `ExecutionResult.finalMetrics`. -/
structure FinalMetrics where
  accuracy : Rat
  loss : LossVal
  trainingTime : Rat
  modelSize : Rat
deriving DecidableEq, Repr

/-- The failure sentinel: accuracy 0, loss `Infinity`, time 0, size 0. -/
def failureMetrics : FinalMetrics :=
  { accuracy := 0, loss := .infinity, trainingTime := 0, modelSize := 0 }

/-- `ExecutionResult`. -/
structure ExecutionResult where
  strategyId : String
  success : Bool
  finalMetrics : FinalMetrics
  model : Option Nat
  error : Option String
deriving DecidableEq, Repr

/-- Environment of one strategy run: the outcome of each delegated
phase call, the abort behaviour of the strategy's cancellation signal,
and the random draw used by `calculateModelSize`. -/
structure StrategyEnv where
  dataOutcome : Except String AgentResult
  modelOutcome : Except String AgentResult
  trainingOutcome : Except String AgentResult
  evalOutcome : Except String AgentResult
  abortAt : Nat
  modelSizeDraw : Rat

/-- The delegate outcome of a given phase. -/
def StrategyEnv.outcome (env : StrategyEnv) : Phase → Except String AgentResult
  | .data => env.dataOutcome
  | .model => env.modelOutcome
  | .training => env.trainingOutcome
  | .evaluation => env.evalOutcome

/-- The `running` progress event emitted at the start of `executePhase`. -/
def runningEvent (plan : OptimizationPlan) (phase : Phase) : ExecutionProgress :=
  { strategyId := plan.strategyId, phase := phase, progress := 25, status := .running,
    message := "Executing " ++ phase.label ++ " phase", metrics := none }

/-- The `completed` progress event emitted when a phase's work returns. -/
def completedEvent (plan : OptimizationPlan) (phase : Phase) : ExecutionProgress :=
  { strategyId := plan.strategyId, phase := phase, progress := 100, status := .completed,
    message := phase.label ++ " phase completed", metrics := none }

/-- Observable outcome of one `executePhase` call: the value returned or
error thrown, the progress events published, and whether the delegated
work function was invoked. -/
structure PhaseCall where
  outcome : Except String AgentResult
  events : List ExecutionProgress
  workInvoked : Bool
deriving Repr

/-- `executePhase` (ParallelExecutor.ts lines 275–304): throws
`'Execution aborted'` if the signal is already aborted, otherwise emits
a running event, awaits the work, and emits a completed event. -/
def executePhase (phase : Phase) (plan : OptimizationPlan)
    (work : Except String AgentResult) (aborted : Bool) : PhaseCall :=
  if aborted then
    { outcome := .error "Execution aborted", events := [], workInvoked := false }
  else
    match work with
    | .error msg =>
        { outcome := .error msg, events := [runningEvent plan phase], workInvoked := true }
    | .ok r =>
        { outcome := .ok r,
          events := [runningEvent plan phase, completedEvent plan phase],
          workInvoked := true }

/-- The start event emitted at the beginning of `executeSingleStrategy`. -/
def startEvent (plan : OptimizationPlan) : ExecutionProgress :=
  { strategyId := plan.strategyId, phase := .data, progress := 0, status := .running,
    message := "Starting " ++ plan.approach ++ " strategy", metrics := none }

/-- The terminal `failed` event emitted by the catch block of
`executeSingleStrategy` (lines 253–259); its phase field is the literal
`'evaluation'` in the source. -/
def failedEvent (plan : OptimizationPlan) (msg : String) : ExecutionProgress :=
  { strategyId := plan.strategyId, phase := .evaluation, progress := 0, status := .failed,
    message := "Strategy failed: " ++ msg, metrics := none }

/-- The terminal `completed` event emitted on full success (lines 226–233). -/
def strategyCompletedEvent (plan : OptimizationPlan) (evalData : AgentData) :
    ExecutionProgress :=
  { strategyId := plan.strategyId, phase := .evaluation, progress := 100,
    status := .completed,
    message := "Strategy completed with " ++ toString evalData.accuracy ++ "% accuracy",
    metrics := some evalData }

/-- `Map.set` on the active-executions registry, observed at key level. -/
def regSet (id : String) (reg : List String) : List String :=
  if id ∈ reg then reg else reg ++ [id]

/-- `Map.delete` on the active-executions registry. -/
def regDelete (id : String) (reg : List String) : List String :=
  reg.filter (fun s => s != id)

/-- The failed `ExecutionResult` produced by the catch block (lines 261–271). -/
def failResult (plan : OptimizationPlan) (msg : String) : ExecutionResult :=
  { strategyId := plan.strategyId, success := false, finalMetrics := failureMetrics,
    model := none, error := some msg }

/-- Observable outcome of one `executeSingleStrategy` call. -/
structure RunOut where
  result : ExecutionResult
  events : List ExecutionProgress
  invocations : List Phase
  timeoutCleared : Bool
  registry : List String
deriving Repr

/-- The catch block of `executeSingleStrategy` (lines 247–272): clear the
timeout, delete the registry entry, emit the terminal failed event, and
return the failure result. -/
def failExit (plan : OptimizationPlan) (reg1 : List String) (msg : String)
    (evs : List ExecutionProgress) (invs : List Phase) : RunOut :=
  { result := failResult plan msg,
    events := evs ++ [failedEvent plan msg],
    invocations := invs,
    timeoutCleared := true,
    registry := regDelete plan.strategyId reg1 }

/-- `executeSingleStrategy` (lines 115–273): register the abort
controller, start the timeout, run the four phases in order, checking
the `success` flag of the data/model/training results (the evaluation
result's flag is not checked in the source), and convert every thrown
error into a failure result via the catch block. -/
def executeSingleStrategy (plan : OptimizationPlan) (env : StrategyEnv)
    (reg : List String) : RunOut :=
  let reg1 := regSet plan.strategyId reg
  let evs0 := [startEvent plan]
  let c1 := executePhase .data plan env.dataOutcome (decide (env.abortAt ≤ 0))
  let evs1 := evs0 ++ c1.events
  let invs1 := if c1.workInvoked then [Phase.data] else []
  match c1.outcome with
  | .error msg => failExit plan reg1 msg evs1 invs1
  | .ok dataResult =>
    if dataResult.success = false then
      failExit plan reg1 "Data processing failed" evs1 invs1
    else
      let c2 := executePhase .model plan env.modelOutcome (decide (env.abortAt ≤ 1))
      let evs2 := evs1 ++ c2.events
      let invs2 := invs1 ++ (if c2.workInvoked then [Phase.model] else [])
      match c2.outcome with
      | .error msg => failExit plan reg1 msg evs2 invs2
      | .ok modelResult =>
        if modelResult.success = false then
          failExit plan reg1 "Model design failed" evs2 invs2
        else
          let c3 := executePhase .training plan env.trainingOutcome
            (decide (env.abortAt ≤ 2))
          let evs3 := evs2 ++ c3.events
          let invs3 := invs2 ++ (if c3.workInvoked then [Phase.training] else [])
          match c3.outcome with
          | .error msg => failExit plan reg1 msg evs3 invs3
          | .ok trainingResult =>
            if trainingResult.success = false then
              failExit plan reg1 "Training failed" evs3 invs3
            else
              let c4 := executePhase .evaluation plan env.evalOutcome
                (decide (env.abortAt ≤ 3))
              let evs4 := evs3 ++ c4.events
              let invs4 := invs3 ++ (if c4.workInvoked then [Phase.evaluation] else [])
              match c4.outcome with
              | .error msg => failExit plan reg1 msg evs4 invs4
              | .ok evalResult =>
                { result :=
                    { strategyId := plan.strategyId, success := true,
                      finalMetrics :=
                        { accuracy := evalResult.data.accuracy,
                          loss := evalResult.data.loss,
                          trainingTime := trainingResult.data.trainingTime,
                          modelSize := env.modelSizeDraw },
                      model := some trainingResult.data.model,
                      error := none },
                  events := evs4 ++ [strategyCompletedEvent plan evalResult.data],
                  invocations := invs4,
                  timeoutCleared := true,
                  registry := regDelete plan.strategyId reg1 }

/-- How the promise returned by `executeSingleStrategy` for a given
strategy id settles at the scheduler, as observed by
`Promise.allSettled`: either the runner actually runs (fulfilled — the
runner itself never rejects), or, defensively, the promise rejects with
a reason whose `.message` is the given option (`none` models a reason
without a message, which the scheduler replaces by `'Unknown error'`). -/
inductive RunnerBehaviour where
  | run (senv : StrategyEnv)
  | reject (reason : Option String)

/-- Scheduler-level environment: the behaviour of each strategy id. -/
structure SchedulerEnv where
  behaviour : String → RunnerBehaviour

/-- The options object of `executeStrategies` with its source defaults.
The timeout value itself only parameterises the timer whose effect is
embedded in each strategy's `StrategyEnv.abortAt`. -/
structure ExecOptions where
  maxConcurrent : Nat := 3
  timeout : Nat := 3600000
  earlyStopOnSuccess : Bool := false

/-- The failure result the scheduler records for a rejected slot
(ParallelExecutor.ts lines 97–107). -/
def rejectionResult (plan : OptimizationPlan) (reason : Option String) :
    ExecutionResult :=
  { strategyId := plan.strategyId, success := false, finalMetrics := failureMetrics,
    model := none, error := some (reason.getD "Unknown error") }

/-- `createBatches` (lines 310–316): consecutive slices of length
`size`.  The source loop does not terminate for `size = 0` on a
non-empty list (the loop index never advances); the model returns `[]`
there, outside the domain the claims quantify over (`maxConcurrent ≥ 1`). -/
def createBatches {α : Type} : List α → Nat → List (List α)
  | [], _ => []
  | _ :: _, 0 => []
  | a :: l, size + 1 =>
    (a :: l).take (size + 1) :: createBatches ((a :: l).drop (size + 1)) (size + 1)
termination_by l _ => l.length
decreasing_by
  simp only [List.length_drop, List.length_cons]
  omega

/-- Settled outcome of one slot of a batch. -/
abbrev Settled := OptimizationPlan × Except (Option String) ExecutionResult

/-- Output of running one batch's strategies (the `Promise.allSettled`
collection plus the traces produced while the batch ran). -/
structure BatchOut where
  settled : List Settled
  events : List ExecutionProgress
  invocations : List (String × Phase)
  registry : List String

/-- Launch every strategy of a batch and collect the settled outcomes
(lines 79–83), threading the shared registry through the runs. -/
def settleBatch (env : SchedulerEnv) : List OptimizationPlan → List String → BatchOut
  | [], reg => { settled := [], events := [], invocations := [], registry := reg }
  | p :: ps, reg =>
    match env.behaviour p.strategyId with
    | .run senv =>
      let o := executeSingleStrategy p senv reg
      let rest := settleBatch env ps o.registry
      { settled := (p, .ok o.result) :: rest.settled,
        events := o.events ++ rest.events,
        invocations := o.invocations.map (fun ph => (p.strategyId, ph)) ++ rest.invocations,
        registry := rest.registry }
    | .reject reason =>
      let rest := settleBatch env ps reg
      { settled := (p, .error reason) :: rest.settled,
        events := rest.events,
        invocations := rest.invocations,
        registry := rest.registry }

/-- The collection loop over one batch's settled outcomes (lines
85–109): push the fulfilled value or a rejection-derived failure
result; on a fulfilled success with accuracy ≥ 0.95 (and early stop
enabled) stop, reporting the results accumulated so far. -/
def collect (earlyStop : Bool) : List Settled → List ExecutionResult × Bool
  | [] => ([], false)
  | (p, s) :: rest =>
    match s with
    | .ok v =>
      if earlyStop && v.success && decide ((95 : Rat)/100 ≤ v.finalMetrics.accuracy) then
        ([v], true)
      else
        let (rs, st) := collect earlyStop rest
        (v :: rs, st)
    | .error reason =>
      let (rs, st) := collect earlyStop rest
      (rejectionResult p reason :: rs, st)

/-- Observable outcome of one `executeStrategies` call.  `cancelFired`
records whether `cancelRemainingExecutions` ran (it aborts every
registered controller and clears the registry, lines 324–329). -/
structure SchedulerOutput where
  results : List ExecutionResult
  events : List ExecutionProgress
  invocations : List (String × Phase)
  registry : List String
  cancelFired : Bool

/-- The batch loop of `executeStrategies` (lines 78–110). -/
def runBatches (env : SchedulerEnv) (earlyStop : Bool) :
    List (List OptimizationPlan) → List String → SchedulerOutput
  | [], reg =>
    { results := [], events := [], invocations := [], registry := reg,
      cancelFired := false }
  | b :: bs, reg =>
    let bo := settleBatch env b reg
    let (rs, stopped) := collect earlyStop bo.settled
    if stopped then
      { results := rs, events := bo.events, invocations := bo.invocations,
        registry := [], cancelFired := true }
    else
      let out := runBatches env earlyStop bs bo.registry
      { results := rs ++ out.results, events := bo.events ++ out.events,
        invocations := bo.invocations ++ out.invocations,
        registry := out.registry, cancelFired := out.cancelFired }

/-- `executeStrategies` (lines 59–113): batch the plans by
`maxConcurrent` and run the batches sequentially.  The dataset handle
is opaque to the core (it only flows into delegate payloads, abstracted
by the environment), so it does not appear as a parameter. -/
def executeStrategies (plans : List OptimizationPlan) (opts : ExecOptions)
    (env : SchedulerEnv) (reg : List String) : SchedulerOutput :=
  runBatches env opts.earlyStopOnSuccess (createBatches plans opts.maxConcurrent) reg

/-- The sort comparator of `compareStrategies` (lines 345–350), read as
the `a` may come before `b` relation, i.e. comparator value ≤ 0. -/
def cmpLe (a b : ExecutionResult) : Bool :=
  if |a.finalMetrics.accuracy - b.finalMetrics.accuracy| > 1/100 then
    decide (b.finalMetrics.accuracy ≤ a.finalMetrics.accuracy)
  else
    decide (a.finalMetrics.trainingTime ≤ b.finalMetrics.trainingTime)

/-- Insert into a sorted list, keeping the new element after existing
elements it compares equal to (stability of the engine's sort). -/
def orderedInsertB {α : Type} (le : α → α → Bool) (a : α) : List α → List α
  | [] => [a]
  | b :: l => if le a b then a :: b :: l else b :: orderedInsertB le a l

/-- A stable sort by the given boolean relation, embedding
`Array.prototype.sort` (stable per the ECMAScript specification). -/
def stableSortB {α : Type} (le : α → α → Bool) : List α → List α
  | [] => []
  | a :: l => orderedInsertB le a (stableSortB le l)

/-- `Math.round`: round half toward positive infinity. -/
def jsRound (q : Rat) : Int := ⌊q + 1/2⌋

/-- The analysis block returned by `compareStrategies`. -/
structure StrategyAnalysis where
  accuracyWinner : String
  speedWinner : String
  sizeWinner : String
  overallWinner : String
  recommendations : List String
deriving DecidableEq, Repr

/-- The record returned by `compareStrategies`. -/
structure ComparisonOutput where
  best : ExecutionResult
  ranking : List ExecutionResult
  analysis : StrategyAnalysis
deriving DecidableEq, Repr

/-- `compareStrategies` (lines 331–407): filter to successful results,
sort by the accuracy/training-time comparator, fail if nothing is left,
then derive category winners by linear scans and build the
recommendation list. -/
def compareOutput (best : ExecutionResult) (rest : List ExecutionResult) :
    ComparisonOutput :=
    let accuracyWinner := rest.foldl
      (fun prev curr =>
        if prev.finalMetrics.accuracy < curr.finalMetrics.accuracy then curr else prev)
      best
    let speedWinner := rest.foldl
      (fun prev curr =>
        if curr.finalMetrics.trainingTime < prev.finalMetrics.trainingTime then curr
        else prev)
      best
    let sizeWinner := rest.foldl
      (fun prev curr =>
        if curr.finalMetrics.modelSize < prev.finalMetrics.modelSize then curr else prev)
      best
    let recs0 : List String :=
      if (95 : Rat)/100 ≤ best.finalMetrics.accuracy then
        ["Target accuracy achieved! Consider the fastest model."]
      else
        ["Target accuracy not met. Consider ensemble methods."]
    let recs1 :=
      if speedWinner.strategyId ≠ accuracyWinner.strategyId then
        recs0 ++ ["Trade-off detected: " ++ accuracyWinner.strategyId ++
          " has best accuracy but " ++ speedWinner.strategyId ++ " is " ++
          toString (jsRound (accuracyWinner.finalMetrics.trainingTime /
            speedWinner.finalMetrics.trainingTime)) ++ "x faster"]
      else recs0
    let recs2 :=
      if sizeWinner.strategyId ≠ best.strategyId then
        recs1 ++ ["For deployment, consider " ++ sizeWinner.strategyId ++
          " which is " ++
          toString (jsRound (best.finalMetrics.modelSize /
            sizeWinner.finalMetrics.modelSize)) ++ "x smaller"]
      else recs1
    { best := best, ranking := best :: rest,
      analysis :=
        { accuracyWinner := accuracyWinner.strategyId,
          speedWinner := speedWinner.strategyId,
          sizeWinner := sizeWinner.strategyId,
          overallWinner := best.strategyId,
          recommendations := recs2 } }

/-- `compareStrategies` top level: filter, sort, fail on an empty
ranking, otherwise assemble the output record. -/
def compareStrategies (results : List ExecutionResult) :
    Except String ComparisonOutput :=
  match stableSortB cmpLe (results.filter (fun r => r.success)) with
  | [] => .error "No successful strategies to compare"
  | best :: rest => .ok (compareOutput best rest)

/-- The sublist of progress events with terminal status `failed`. -/
def failedEvents (evs : List ExecutionProgress) : List ExecutionProgress :=
  evs.filter (fun ev => decide (ev.status = Status.failed))

/-- How the slot of a given plan settles, as a function of the plan's
behaviour alone (the runner's result does not depend on the shared
registry, proved below). -/
def settledOf (env : SchedulerEnv) (p : OptimizationPlan) :
    Except (Option String) ExecutionResult :=
  match env.behaviour p.strategyId with
  | .run senv => .ok (executeSingleStrategy p senv []).result
  | .reject reason => .error reason

/-- The `ExecutionResult` the collection loop records for a settled slot. -/
def settledToResult (s : Settled) : ExecutionResult :=
  match s.2 with
  | .ok v => v
  | .error reason => rejectionResult s.1 reason

/-- The `ExecutionResult` recorded for a given plan. -/
def settleResultOf (env : SchedulerEnv) (p : OptimizationPlan) : ExecutionResult :=
  settledToResult (p, settledOf env p)

/-- The early-stop test of the collection loop: a successful result
with accuracy at least 0.95. -/
def qualR (r : ExecutionResult) : Bool :=
  r.success && decide ((95 : Rat)/100 ≤ r.finalMetrics.accuracy)

/-- Two accuracies the source comparator treats as tied. -/
def tie (a b : ExecutionResult) : Prop :=
  |a.finalMetrics.accuracy - b.finalMetrics.accuracy| ≤ 1/100

/-- The pairwise order of a well-formed ranking: a tied pair is ordered
by training time ascending, a non-tied pair by accuracy descending. -/
def rankedOrder (x y : ExecutionResult) : Prop :=
  (tie x y → x.finalMetrics.trainingTime ≤ y.finalMetrics.trainingTime) ∧
  (¬ tie x y → y.finalMetrics.accuracy < x.finalMetrics.accuracy)

/-! ### Concrete fixtures for witnesses and counterexamples -/

/-- A first sample plan. -/
def wplan1 : OptimizationPlan :=
  { strategyId := "s1", name := "Plan One", approach := "transfer-learning" }

/-- A second sample plan. -/
def wplan2 : OptimizationPlan :=
  { strategyId := "s2", name := "Plan Two", approach := "ensemble" }

/-- A delegate fulfillment with `success: true` and accuracy 0.96. -/
def okAgent : AgentResult :=
  { success := true,
    data := { accuracy := 24/25, loss := .val (1/10), trainingTime := 120, model := 7 } }

/-- A strategy environment in which every phase fulfills successfully
and the signal never triggers. -/
def succEnv : StrategyEnv :=
  { dataOutcome := .ok okAgent, modelOutcome := .ok okAgent,
    trainingOutcome := .ok okAgent, evalOutcome := .ok okAgent,
    abortAt := 9, modelSizeDraw := 42 }

/-- Like `succEnv` but the data delegate's promise rejects. -/
def dataRejectEnv : StrategyEnv :=
  { succEnv with dataOutcome := .error "boom" }

/-- Like `succEnv` but the evaluation delegate fulfills with
`success: false`. -/
def evalFlagEnv : StrategyEnv :=
  { succEnv with evalOutcome := .ok { okAgent with success := false } }

/-- A scheduler environment in which strategy `s2`'s promise rejects
and every other strategy runs successfully. -/
def schedEnvA : SchedulerEnv :=
  ⟨fun id => if id = "s2" then .reject (some "crash") else .run succEnv⟩

/-- A scheduler environment in which every strategy runs successfully;
it agrees with `schedEnvA` on every id other than `s2`. -/
def schedEnvB : SchedulerEnv :=
  ⟨fun _ => .run succEnv⟩

/-- A successful result with accuracy 0.901 and training time 100. -/
def exSlow : ExecutionResult :=
  { strategyId := "slow", success := true,
    finalMetrics :=
      { accuracy := 901/1000, loss := .val 1, trainingTime := 100, modelSize := 10 },
    model := some 0, error := none }

/-- A successful result with accuracy 0.905 and training time 80. -/
def exFast : ExecutionResult :=
  { strategyId := "fast", success := true,
    finalMetrics :=
      { accuracy := 905/1000, loss := .val 1, trainingTime := 80, modelSize := 10 },
    model := some 0, error := none }

/-- Accuracy 0.900, training time 1: start of a comparator tie chain. -/
def cycA : ExecutionResult :=
  { strategyId := "a", success := true,
    finalMetrics :=
      { accuracy := 9/10, loss := .val 1, trainingTime := 1, modelSize := 10 },
    model := some 0, error := none }

/-- Accuracy 0.906, training time 5: ties with both neighbours. -/
def cycB : ExecutionResult :=
  { strategyId := "b", success := true,
    finalMetrics :=
      { accuracy := 453/500, loss := .val 1, trainingTime := 5, modelSize := 10 },
    model := some 0, error := none }

/-- Accuracy 0.912, training time 10: ties with `cycB` but not `cycA`. -/
def cycC : ExecutionResult :=
  { strategyId := "c", success := true,
    finalMetrics :=
      { accuracy := 114/125, loss := .val 1, trainingTime := 10, modelSize := 10 },
    model := some 0, error := none }

/-! ### Characterisation lemmas for the strategy runner -/

lemma ess_registry (plan : OptimizationPlan) (env : StrategyEnv) (reg : List String) :
    (executeSingleStrategy plan env reg).registry =
      regDelete plan.strategyId (regSet plan.strategyId reg) := by
  simp only [executeSingleStrategy]
  repeat' split
  all_goals rfl

lemma ess_timeoutCleared (plan : OptimizationPlan) (env : StrategyEnv)
    (reg : List String) : (executeSingleStrategy plan env reg).timeoutCleared = true := by
  simp only [executeSingleStrategy]
  repeat' split
  all_goals rfl

lemma ess_strategyId (plan : OptimizationPlan) (env : StrategyEnv) (reg : List String) :
    (executeSingleStrategy plan env reg).result.strategyId = plan.strategyId := by
  simp only [executeSingleStrategy]
  repeat' split
  all_goals rfl

lemma ess_result_reg_irrel (plan : OptimizationPlan) (env : StrategyEnv)
    (reg : List String) :
    (executeSingleStrategy plan env reg).result =
      (executeSingleStrategy plan env []).result := by
  simp only [executeSingleStrategy]
  repeat' split
  all_goals rfl

lemma executePhase_outcome_ok (ph : Phase) (plan : OptimizationPlan)
    (w : Except String AgentResult) (ab : Bool) (r : AgentResult) :
    (executePhase ph plan w ab).outcome = .ok r ↔ ab = false ∧ w = .ok r := by
  cases ab <;> cases w <;> simp [executePhase]

lemma executePhase_outcome_error (ph : Phase) (plan : OptimizationPlan)
    (w : Except String AgentResult) (ab : Bool) (m : String) :
    (executePhase ph plan w ab).outcome = .error m ↔
      (ab = true ∧ m = "Execution aborted") ∨ (ab = false ∧ w = .error m) := by
  cases ab <;> cases w <;> simp [executePhase] <;> tauto

/-- Every run either takes the catch block (producing the normalized
failure result) or the success return. -/
lemma ess_result_cases (plan : OptimizationPlan) (env : StrategyEnv)
    (reg : List String) :
    (∃ m, (executeSingleStrategy plan env reg).result = failResult plan m) ∨
      (executeSingleStrategy plan env reg).result.success = true := by
  simp only [executeSingleStrategy]
  repeat' split
  all_goals first
    | exact Or.inl ⟨_, rfl⟩
    | exact Or.inr rfl

/-- If a run returns a successful result, the signal never triggered,
the first three delegates fulfilled with `success: true`, and the
evaluation delegate fulfilled (with any flag). -/
lemma ess_success_conditions (plan : OptimizationPlan) (env : StrategyEnv)
    (reg : List String)
    (h : (executeSingleStrategy plan env reg).result.success = true) :
    3 < env.abortAt ∧
      (∃ r, env.dataOutcome = .ok r ∧ r.success = true) ∧
      (∃ r, env.modelOutcome = .ok r ∧ r.success = true) ∧
      (∃ r, env.trainingOutcome = .ok r ∧ r.success = true) ∧
      (∃ r, env.evalOutcome = .ok r) := by
  revert h
  simp only [executeSingleStrategy]
  repeat' split
  all_goals intro h
  all_goals simp_all [executePhase_outcome_ok, failExit, failResult]

/-- A delegated phase call that fails in the sense of the specification:
the promise rejects, or it fulfills with `success: false`. -/
def delegateFails (e : Except String AgentResult) : Prop :=
  (∃ m, e = .error m) ∨ (∃ r, e = .ok r ∧ r.success = false)

/-- Any failure path forces `success = false` on the produced result. -/
lemma ess_fail_of (plan : OptimizationPlan) (env : StrategyEnv) (reg : List String)
    (hfail : env.abortAt ≤ 3 ∨ delegateFails env.dataOutcome ∨
      delegateFails env.modelOutcome ∨ delegateFails env.trainingOutcome ∨
      (∃ m, env.evalOutcome = .error m)) :
    (executeSingleStrategy plan env reg).result.success = false := by
  rcases ess_result_cases plan env reg with ⟨m, hm⟩ | hs
  · rw [hm]; rfl
  · exfalso
    obtain ⟨hab, ⟨r1, h1, h1s⟩, ⟨r2, h2, h2s⟩, ⟨r3, h3, h3s⟩, ⟨r4, h4⟩⟩ :=
      ess_success_conditions plan env reg hs
    rcases hfail with h | h | h | h | ⟨m, h⟩
    · omega
    · rcases h with ⟨m, h⟩ | ⟨r, h, hrs⟩ <;> rw [h1] at h <;> simp_all
    · rcases h with ⟨m, h⟩ | ⟨r, h, hrs⟩ <;> rw [h2] at h <;> simp_all
    · rcases h with ⟨m, h⟩ | ⟨r, h, hrs⟩ <;> rw [h3] at h <;> simp_all
    · rw [h4] at h; simp_all

lemma filter_failed_executePhase (ph : Phase) (plan : OptimizationPlan)
    (w : Except String AgentResult) (ab : Bool) :
    List.filter (fun ev => decide (ev.status = Status.failed))
      (executePhase ph plan w ab).events = [] := by
  cases ab <;> cases w <;>
    simp [executePhase, runningEvent, completedEvent]

/-- A failed run publishes exactly one `failed` event, and it is the
catch block's event (whose phase label is the literal `evaluation`). -/
lemma ess_failed_events (plan : OptimizationPlan) (env : StrategyEnv)
    (reg : List String)
    (h : (executeSingleStrategy plan env reg).result.success = false) :
    ∃ m, failedEvents (executeSingleStrategy plan env reg).events =
      [failedEvent plan m] := by
  revert h
  simp only [executeSingleStrategy]
  repeat' split
  all_goals intro h
  all_goals
    first
      | (exfalso
         revert h
         simp
         done)
      | (simp only [failExit, failedEvents, List.filter_append]
         simp [filter_failed_executePhase, startEvent, failedEvent]
         try exact ⟨_, rfl⟩
         done)

/-- A successful run publishes no `failed` event at all. -/
lemma ess_no_failed_events (plan : OptimizationPlan) (env : StrategyEnv)
    (reg : List String)
    (h : (executeSingleStrategy plan env reg).result.success = true) :
    failedEvents (executeSingleStrategy plan env reg).events = [] := by
  revert h
  simp only [executeSingleStrategy]
  repeat' split
  all_goals intro h
  all_goals
    first
      | (exfalso
         revert h
         simp [failExit, failResult]
         done)
      | (simp only [failedEvents, List.filter_append]
         simp [filter_failed_executePhase, startEvent, strategyCompletedEvent]
         done)

/-! ### Characterisation lemmas for the batch scheduler -/

lemma settleBatch_settled (env : SchedulerEnv) (ps : List OptimizationPlan) :
    ∀ reg, (settleBatch env ps reg).settled =
      ps.map (fun p => (p, settledOf env p)) := by
  induction ps with
  | nil => intro reg; rfl
  | cons p ps ih =>
    intro reg
    cases hb : env.behaviour p.strategyId with
    | run senv =>
      simp only [settleBatch, hb]
      rw [ess_result_reg_irrel, ih]
      simp [settledOf, hb]
    | reject reason =>
      simp only [settleBatch, hb]
      rw [ih]
      simp [settledOf, hb]

lemma settleBatch_invocations (env : SchedulerEnv) (ps : List OptimizationPlan) :
    ∀ reg, ∀ q ∈ (settleBatch env ps reg).invocations,
      q.1 ∈ ps.map (fun p => p.strategyId) := by
  induction ps with
  | nil => intro reg q hq; simp [settleBatch] at hq
  | cons p ps ih =>
    intro reg q hq
    simp only [settleBatch] at hq
    cases hb : env.behaviour p.strategyId with
    | run senv =>
      rw [hb] at hq
      simp only [List.mem_append, List.mem_map] at hq
      rcases hq with ⟨ph, _, rfl⟩ | hq
      · simp
      · simpa using Or.inr (by simpa using ih _ q hq)
    | reject reason =>
      rw [hb] at hq
      simpa using Or.inr (by simpa using ih _ q hq)

lemma collect_false (ss : List Settled) :
    collect false ss = (ss.map settledToResult, false) := by
  induction ss with
  | nil => rfl
  | cons s rest ih =>
    obtain ⟨p, e⟩ := s
    cases e with
    | ok v => simp [collect, ih, settledToResult]
    | error reason => simp [collect, ih, settledToResult]

lemma createBatches_flatten {α : Type} (size : Nat) (l : List α) :
    (createBatches l (size + 1)).flatten = l := by
  cases l with
  | nil => simp [createBatches]
  | cons a l =>
    rw [createBatches]
    simp only [List.flatten_cons]
    rw [createBatches_flatten size ((a :: l).drop (size + 1))]
    exact List.take_append_drop _ _
termination_by l.length
decreasing_by simp; omega

lemma runBatches_results_false (env : SchedulerEnv)
    (bs : List (List OptimizationPlan)) :
    ∀ reg, (runBatches env false bs reg).results =
      bs.flatten.map (settleResultOf env) := by
  induction bs with
  | nil => intro reg; simp [runBatches]
  | cons b bs ih =>
    intro reg
    rw [runBatches]
    simp only [settleBatch_settled, collect_false]
    simp [ih, settleResultOf, List.map_map]

lemma collect_true_nostop (ss : List Settled)
    (h : ∀ s ∈ ss, qualR (settledToResult s) = false) :
    collect true ss = (ss.map settledToResult, false) := by
  induction ss with
  | nil => rfl
  | cons s rest ih =>
    obtain ⟨p, e⟩ := s
    have h0 := h (p, e) (by simp)
    have hrest : ∀ s ∈ rest, qualR (settledToResult s) = false :=
      fun s hs => h s (by simp [hs])
    cases e with
    | ok v =>
      have hv : (v.success && decide ((95 : Rat)/100 ≤ v.finalMetrics.accuracy)) = false := by
        simpa [settledToResult, qualR] using h0
      simp [collect, hv, ih hrest, settledToResult]
    | error reason =>
      simp [collect, ih hrest, settledToResult]

lemma collect_true_stop (ss : List Settled) (i : Nat) (hi : i < ss.length)
    (hq : qualR (settledToResult (ss.get ⟨i, hi⟩)) = true)
    (hfirst : ∀ k (hk : k < i),
      qualR (settledToResult (ss.get ⟨k, by omega⟩)) = false) :
    collect true ss = ((ss.take (i + 1)).map settledToResult, true) := by
  induction ss generalizing i with
  | nil => simp at hi
  | cons s rest ih =>
    obtain ⟨p, e⟩ := s
    cases i with
    | zero =>
      cases e with
      | ok v =>
        have hv : (v.success && decide ((95 : Rat)/100 ≤ v.finalMetrics.accuracy)) = true := by
          simpa [settledToResult, qualR] using hq
        simp [collect, hv, settledToResult]
      | error reason =>
        simp [settledToResult, qualR, rejectionResult] at hq
    | succ i' =>
      have h0 : qualR (settledToResult (p, e)) = false := hfirst 0 (by omega)
      have hi' : i' < rest.length := by simpa using hi
      have hq' : qualR (settledToResult (rest.get ⟨i', hi'⟩)) = true := by
        simpa using hq
      have hfirst' : ∀ k (hk : k < i'),
          qualR (settledToResult (rest.get ⟨k, by omega⟩)) = false := by
        intro k hk
        simpa using hfirst (k + 1) (by omega)
      cases e with
      | ok v =>
        have hv : (v.success && decide ((95 : Rat)/100 ≤ v.finalMetrics.accuracy)) = false := by
          simpa [settledToResult, qualR] using h0
        simp [collect, hv, ih i' hi' hq' hfirst', settledToResult]
      | error reason =>
        simp [collect, ih i' hi' hq' hfirst', settledToResult]

lemma get_congr_idx {α : Type} (l : List α) (a b : Nat) (ha : a < l.length)
    (hb : b < l.length) (hab : a = b) : l.get ⟨a, ha⟩ = l.get ⟨b, hb⟩ := by
  subst hab; rfl

lemma get_drop_eq {α : Type} (l : List α) (n k : Nat) (h1 : k < (l.drop n).length)
    (h2 : n + k < l.length) : (l.drop n).get ⟨k, h1⟩ = l.get ⟨n + k, h2⟩ := by
  simp [List.getElem_drop]

lemma get_take_eq {α : Type} (l : List α) (n k : Nat) (h1 : k < (l.take n).length)
    (h2 : k < l.length) : (l.take n).get ⟨k, h1⟩ = l.get ⟨k, h2⟩ := by
  simp [List.getElem_take]

/-- Behaviour of the batch loop when early stop is enabled and the
first qualifying slot (successful, accuracy at least 0.95) is at input
position `j`: the loop stops there, fires the cancellation sweep
(clearing the registry), returns exactly the results of positions
`0..j`, and the only strategies whose delegates were ever invoked lie
in the batches up to and including the one containing `j`. -/
lemma runBatches_earlyStop (env : SchedulerEnv) (m : Nat)
    (plans : List OptimizationPlan) (reg : List String) (j : Nat)
    (hj : j < plans.length)
    (hq : qualR (settleResultOf env (plans.get ⟨j, hj⟩)) = true)
    (hfirst : ∀ k (hk : k < j),
      qualR (settleResultOf env (plans.get ⟨k, by omega⟩)) = false) :
    (runBatches env true (createBatches plans (m + 1)) reg).results =
        (plans.take (j + 1)).map (settleResultOf env) ∧
      (runBatches env true (createBatches plans (m + 1)) reg).cancelFired = true ∧
      (runBatches env true (createBatches plans (m + 1)) reg).registry = [] ∧
      ∀ q ∈ (runBatches env true (createBatches plans (m + 1)) reg).invocations,
        q.1 ∈ (plans.take ((j / (m + 1) + 1) * (m + 1))).map
          (fun p => p.strategyId) := by
  induction j using Nat.strong_induction_on generalizing plans reg with
  | _ j ih => ?_
  cases plans with
  | nil => simp at hj
  | cons p l =>
    rw [createBatches]
    have hlen : (p :: l).length = l.length + 1 := rfl
    have hsrf : (settledToResult ∘ fun x => (x, settledOf env x)) =
        settleResultOf env := rfl
    have hsettled := settleBatch_settled env ((p :: l).take (m + 1)) reg
    by_cases hcase : j < m + 1
    · -- the qualifying slot lies in the first batch
      have hjb : j < ((p :: l).take (m + 1)).length := by
        rw [List.length_take]; omega
      have hjm : j < (((p :: l).take (m + 1)).map
          (fun p => (p, settledOf env p))).length := by simpa using hjb
      have hstop := collect_true_stop
        (((p :: l).take (m + 1)).map (fun p => (p, settledOf env p))) j hjm
        (by
          simp only [List.get_eq_getElem, List.getElem_map, List.getElem_take]
          exact hq)
        (by
          intro k hk
          simp only [List.get_eq_getElem, List.getElem_map, List.getElem_take]
          exact hfirst k hk)
      simp only [runBatches, hsettled, hstop]
      rw [if_pos (by trivial)]
      dsimp only
      refine ⟨?_, rfl, rfl, ?_⟩
      · rw [← List.map_take, List.take_take, Nat.min_eq_left (by omega),
          List.map_map, hsrf]
      · intro q hq_mem
        have hN : (j / (m + 1) + 1) * (m + 1) = m + 1 := by
          rw [Nat.div_eq_of_lt hcase]; ring
        rw [hN]
        exact settleBatch_invocations env _ reg q hq_mem
    · -- the first batch contains no qualifying slot: recurse
      have hnostop : ∀ s ∈ ((p :: l).take (m + 1)).map
          (fun p => (p, settledOf env p)), qualR (settledToResult s) = false := by
        intro s hs
        rw [List.mem_map] at hs
        obtain ⟨x, hx, rfl⟩ := hs
        rw [List.mem_iff_get] at hx
        obtain ⟨⟨k, hk⟩, rfl⟩ := hx
        have hk2 : k < (p :: l).length := by
          rw [List.length_take] at hk; omega
        have hkj : k < j := by rw [List.length_take] at hk; omega
        show qualR (settleResultOf env
          ((List.take (m + 1) (p :: l)).get ⟨k, hk⟩)) = false
        rw [get_take_eq (p :: l) (m + 1) k hk hk2]
        exact hfirst k hkj
      have hcoll := collect_true_nostop _ hnostop
      simp only [runBatches, hsettled, hcoll]
      rw [if_neg (by simp)]
      dsimp only
      have hj' : j - (m + 1) < ((p :: l).drop (m + 1)).length := by
        simp [List.length_drop]; omega
      have hq' : qualR (settleResultOf env
          (((p :: l).drop (m + 1)).get ⟨j - (m + 1), hj'⟩)) = true := by
        rw [get_drop_eq _ _ _ hj' (by omega),
          get_congr_idx (p :: l) (m + 1 + (j - (m + 1))) j (by omega) hj (by omega)]
        exact hq
      have hfirst' : ∀ k (hk : k < j - (m + 1)),
          qualR (settleResultOf env
            (((p :: l).drop (m + 1)).get ⟨k, by omega⟩)) = false := by
        intro k hk
        rw [get_drop_eq _ _ _ (by omega) (by omega),
          get_congr_idx (p :: l) (m + 1 + k) (m + 1 + k) (by omega) (by omega) rfl]
        exact hfirst (m + 1 + k) (by omega)
      have hrec := ih (j - (m + 1)) (by omega) ((p :: l).drop (m + 1))
        (settleBatch env ((p :: l).take (m + 1)) reg).registry hj' hq' hfirst'
      obtain ⟨hr1, hr2, hr3, hr4⟩ := hrec
      have hdiv : j / (m + 1) = (j - (m + 1)) / (m + 1) + 1 :=
        Nat.div_eq_sub_div (by omega) (by omega)
      have hNsplit : (j / (m + 1) + 1) * (m + 1) =
          (m + 1) + ((j - (m + 1)) / (m + 1) + 1) * (m + 1) := by
        rw [hdiv]; ring
      refine ⟨?_, hr2, hr3, ?_⟩
      · rw [List.map_map, hsrf, hr1,
          show (p :: l).take (j + 1) =
              (p :: l).take (m + 1) ++ ((p :: l).drop (m + 1)).take (j - (m + 1) + 1) from by
            rw [show j + 1 = (m + 1) + (j - (m + 1) + 1) from by omega]
            exact List.take_add ..,
          List.map_append]
      · intro q hq_mem
        rw [hNsplit, List.take_add, List.map_append, List.mem_append]
        rcases List.mem_append.1 hq_mem with hmem | hmem
        · exact Or.inl (settleBatch_invocations env _ reg q hmem)
        · exact Or.inr (hr4 q hmem)

/-! ### Characterisation lemmas for the comparator -/

lemma orderedInsertB_mem {α : Type} (le : α → α → Bool) (a x : α) :
    ∀ s : List α, x ∈ orderedInsertB le a s ↔ x = a ∨ x ∈ s := by
  intro s
  induction s with
  | nil => simp [orderedInsertB]
  | cons b t ih =>
    simp only [orderedInsertB]
    split
    · simp
    · simp only [List.mem_cons, ih]
      tauto

lemma stableSortB_mem {α : Type} (le : α → α → Bool) (x : α) :
    ∀ l : List α, x ∈ stableSortB le l ↔ x ∈ l := by
  intro l
  induction l with
  | nil => simp [stableSortB]
  | cons a t ih =>
    simp only [stableSortB, orderedInsertB_mem, ih, List.mem_cons]

lemma orderedInsertB_length {α : Type} (le : α → α → Bool) (a : α) :
    ∀ s : List α, (orderedInsertB le a s).length = s.length + 1 := by
  intro s
  induction s with
  | nil => rfl
  | cons b t ih =>
    simp only [orderedInsertB]
    split
    · rfl
    · simp [ih]

lemma stableSortB_length {α : Type} (le : α → α → Bool) :
    ∀ l : List α, (stableSortB le l).length = l.length := by
  intro l
  induction l with
  | nil => rfl
  | cons a t ih => simp [stableSortB, orderedInsertB_length, ih]

lemma orderedInsertB_pairwise {α : Type} (le : α → α → Bool) (a : α) :
    ∀ s : List α,
      List.Pairwise (fun x y => le x y = true) s →
      (∀ x ∈ s, le a x = true ∨ le x a = true) →
      (∀ x ∈ a :: s, ∀ y ∈ a :: s, ∀ z ∈ a :: s,
        le x y = true → le y z = true → le x z = true) →
      List.Pairwise (fun x y => le x y = true) (orderedInsertB le a s) := by
  intro s
  induction s with
  | nil => intro _ _ _; simp [orderedInsertB]
  | cons b t ih =>
    intro hs htot htrans
    simp only [orderedInsertB]
    split
    · -- a is inserted in front
      rename_i hab
      refine List.Pairwise.cons ?_ hs
      intro y hy
      rcases List.mem_cons.1 hy with rfl | hyt
      · exact hab
      · exact htrans a (by simp) b (by simp) y (by simp [hyt]) hab
          ((List.pairwise_cons.1 hs).1 y hyt)
    · -- b stays in front, a goes into the tail
      rename_i hab
      have hba : le b a = true := by
        rcases htot b (by simp) with h | h
        · exact absurd h hab
        · exact h
      refine List.Pairwise.cons ?_ ?_
      · intro y hy
        rcases (orderedInsertB_mem le a y t).1 hy with rfl | hyt
        · exact hba
        · exact (List.pairwise_cons.1 hs).1 y hyt
      · refine ih (List.pairwise_cons.1 hs).2
          (fun x hx => htot x (by simp [hx])) ?_
        intro x hx y hy z hz
        refine htrans x ?_ y ?_ z ?_
        · rcases List.mem_cons.1 hx with rfl | h
          · simp
          · simp [h]
        · rcases List.mem_cons.1 hy with rfl | h
          · simp
          · simp [h]
        · rcases List.mem_cons.1 hz with rfl | h
          · simp
          · simp [h]

lemma stableSortB_pairwise {α : Type} (le : α → α → Bool) :
    ∀ l : List α,
      (∀ x ∈ l, ∀ y ∈ l, le x y = true ∨ le y x = true) →
      (∀ x ∈ l, ∀ y ∈ l, ∀ z ∈ l,
        le x y = true → le y z = true → le x z = true) →
      List.Pairwise (fun x y => le x y = true) (stableSortB le l) := by
  intro l
  induction l with
  | nil => intro _ _; simp [stableSortB]
  | cons a t ih =>
    intro htot htrans
    simp only [stableSortB]
    refine orderedInsertB_pairwise le a (stableSortB le t)
      (ih (fun x hx y hy => htot x (by simp [hx]) y (by simp [hy]))
        (fun x hx y hy z hz => htrans x (by simp [hx]) y (by simp [hy]) z (by simp [hz])))
      ?_ ?_
    · intro x hx
      exact htot a (by simp) x (by simp [(stableSortB_mem le x t).1 hx])
    · intro x hx y hy z hz
      have hmem : ∀ w, w ∈ a :: stableSortB le t → w ∈ a :: t := by
        intro w hw
        rcases List.mem_cons.1 hw with rfl | hw
        · simp
        · simp [(stableSortB_mem le w t).1 hw]
      exact htrans x (hmem x hx) y (hmem y hy) z (hmem z hz)

/-- The comparator admits a valid order between any two results. -/
lemma cmpLe_total (a b : ExecutionResult) :
    cmpLe a b = true ∨ cmpLe b a = true := by
  unfold cmpLe
  rw [abs_sub_comm b.finalMetrics.accuracy a.finalMetrics.accuracy]
  by_cases h : |a.finalMetrics.accuracy - b.finalMetrics.accuracy| > 1/100
  · simp only [if_pos h]
    rcases le_total b.finalMetrics.accuracy a.finalMetrics.accuracy with h' | h' <;>
      simp [h']
  · simp only [if_neg h]
    rcases le_total a.finalMetrics.trainingTime b.finalMetrics.trainingTime with h' | h' <;>
      simp [h']

/-- On a list whose tie relation is transitive, the comparator is
transitive. -/
lemma cmpLe_trans_of_tie_trans (l : List ExecutionResult)
    (H : ∀ x ∈ l, ∀ y ∈ l, ∀ z ∈ l, tie x y → tie y z → tie x z) :
    ∀ x ∈ l, ∀ y ∈ l, ∀ z ∈ l,
      cmpLe x y = true → cmpLe y z = true → cmpLe x z = true := by
  intro x hx y hy z hz hxy hyz
  have hsymm : ∀ a b : ExecutionResult, tie a b → tie b a := by
    intro a b h
    unfold tie at h ⊢
    rwa [abs_sub_comm]
  unfold cmpLe at hxy hyz ⊢
  by_cases txy : tie x y <;> by_cases tyz : tie y z
  · -- both pairs tied: the tie relation is transitive, so compare times
    have txz : tie x z := H x hx y hy z hz txy tyz
    rw [if_neg (not_lt.2 txy)] at hxy
    rw [if_neg (not_lt.2 tyz)] at hyz
    rw [if_neg (not_lt.2 txz)]
    simp only [decide_eq_true_eq] at hxy hyz ⊢
    exact le_trans hxy hyz
  · -- x ties y; y beats z on accuracy by more than the threshold
    have txz : ¬ tie x z := fun txz =>
      tyz (H y hy x hx z hz (hsymm x y txy) txz)
    rw [if_neg (not_lt.2 txy)] at hxy
    rw [if_pos (not_le.1 tyz)] at hyz
    rw [if_pos (not_le.1 txz)]
    simp only [decide_eq_true_eq] at hxy hyz ⊢
    have h1 := abs_le.1 txy
    have h2 : (1 : Rat)/100 < y.finalMetrics.accuracy - z.finalMetrics.accuracy := by
      have := not_le.1 tyz
      rwa [abs_of_nonneg (by linarith)] at this
    linarith [h1.1, h1.2]
  · -- x beats y on accuracy; y ties z
    have txz : ¬ tie x z := fun txz =>
      txy (H x hx z hz y hy txz (hsymm y z tyz))
    rw [if_pos (not_le.1 txy)] at hxy
    rw [if_neg (not_lt.2 tyz)] at hyz
    rw [if_pos (not_le.1 txz)]
    simp only [decide_eq_true_eq] at hxy hyz ⊢
    have h1 := abs_le.1 tyz
    have h2 : (1 : Rat)/100 < x.finalMetrics.accuracy - y.finalMetrics.accuracy := by
      have := not_le.1 txy
      rwa [abs_of_nonneg (by linarith)] at this
    linarith [h1.1, h1.2]
  · -- two genuine accuracy gaps compose into a bigger gap
    rw [if_pos (not_le.1 txy)] at hxy
    rw [if_pos (not_le.1 tyz)] at hyz
    simp only [decide_eq_true_eq] at hxy hyz
    have h1 : (1 : Rat)/100 < x.finalMetrics.accuracy - y.finalMetrics.accuracy := by
      have := not_le.1 txy
      rwa [abs_of_nonneg (by linarith)] at this
    have h2 : (1 : Rat)/100 < y.finalMetrics.accuracy - z.finalMetrics.accuracy := by
      have := not_le.1 tyz
      rwa [abs_of_nonneg (by linarith)] at this
    rw [if_pos (by
      rw [abs_of_nonneg (by linarith)]
      linarith)]
    simp only [decide_eq_true_eq]
    linarith

lemma rankedOrder_of_cmpLe (x y : ExecutionResult) (h : cmpLe x y = true) :
    rankedOrder x y := by
  unfold cmpLe at h
  constructor
  · intro ht
    rw [if_neg (not_lt.2 ht)] at h
    simpa using h
  · intro ht
    rw [if_pos (not_le.1 ht)] at h
    simp only [decide_eq_true_eq] at h
    have hgap : (1 : Rat)/100 < x.finalMetrics.accuracy - y.finalMetrics.accuracy := by
      have := not_le.1 ht
      rwa [abs_of_nonneg (by linarith)] at this
    linarith

lemma compareStrategies_ok (results : List ExecutionResult)
    (hne : results.filter (fun r => r.success) ≠ []) :
    ∃ best rest,
      stableSortB cmpLe (results.filter (fun r => r.success)) = best :: rest ∧
      compareStrategies results = .ok (compareOutput best rest) := by
  cases hr : stableSortB cmpLe (results.filter (fun r => r.success)) with
  | nil =>
    exfalso
    apply hne
    have := stableSortB_length cmpLe (results.filter (fun r => r.success))
    rw [hr] at this
    exact List.length_eq_zero.1 this.symm
  | cons b rest =>
    exact ⟨b, rest, rfl, by simp [compareStrategies, hr]⟩

lemma settleResultOf_strategyId (env : SchedulerEnv) (p : OptimizationPlan) :
    (settleResultOf env p).strategyId = p.strategyId := by
  unfold settleResultOf settledToResult settledOf
  cases env.behaviour p.strategyId with
  | run senv => exact ess_strategyId p senv []
  | reject reason => rfl

/-- With early stop disabled, the scheduler returns one result per
plan, in input order, each depending only on that plan's behaviour. -/
lemma executeStrategies_results (plans : List OptimizationPlan)
    (opts : ExecOptions) (env : SchedulerEnv) (reg : List String)
    (hmc : 1 ≤ opts.maxConcurrent) (hes : opts.earlyStopOnSuccess = false) :
    (executeStrategies plans opts env reg).results =
      plans.map (settleResultOf env) := by
  obtain ⟨k, hk⟩ : ∃ k, opts.maxConcurrent = k + 1 :=
    ⟨opts.maxConcurrent - 1, by omega⟩
  rw [executeStrategies, hes, hk, runBatches_results_false, createBatches_flatten]


/-- The example comparator value: 0.901/0.905 are tied, so time 100 vs
80 decides, and the slow result does not come first. -/
lemma cmpLe_exSlow_exFast : cmpLe exSlow exFast = false := by
  unfold cmpLe
  rw [if_neg]
  · rw [show exSlow.finalMetrics.trainingTime = 100 from rfl,
      show exFast.finalMetrics.trainingTime = 80 from rfl]
    decide
  · rw [show exSlow.finalMetrics.accuracy = 901/1000 from rfl,
      show exFast.finalMetrics.accuracy = 905/1000 from rfl]
    simp only [not_lt, abs_sub_le_iff]
    constructor <;> norm_num

/-- On the claim's example pair the sort puts the time-80 result first. -/
lemma compare_example :
    compareStrategies [exSlow, exFast] = .ok (compareOutput exFast [exSlow]) := by
  have hsort : stableSortB cmpLe ([exSlow, exFast].filter (fun r => r.success)) =
      [exFast, exSlow] := by
    rw [show ([exSlow, exFast].filter (fun r => r.success)) = [exSlow, exFast] from rfl]
    simp [stableSortB, orderedInsertB, cmpLe_exSlow_exFast]
  simp [compareStrategies, hsort]

lemma cmpLe_cycAB : cmpLe cycA cycB = true := by
  unfold cmpLe
  rw [if_neg]
  · rw [show cycA.finalMetrics.trainingTime = 1 from rfl,
      show cycB.finalMetrics.trainingTime = 5 from rfl]
    decide
  · rw [show cycA.finalMetrics.accuracy = 9/10 from rfl,
      show cycB.finalMetrics.accuracy = 453/500 from rfl]
    simp only [not_lt, abs_sub_le_iff]
    constructor <;> norm_num

lemma cmpLe_cycBC : cmpLe cycB cycC = true := by
  unfold cmpLe
  rw [if_neg]
  · rw [show cycB.finalMetrics.trainingTime = 5 from rfl,
      show cycC.finalMetrics.trainingTime = 10 from rfl]
    decide
  · rw [show cycB.finalMetrics.accuracy = 453/500 from rfl,
      show cycC.finalMetrics.accuracy = 114/125 from rfl]
    simp only [not_lt, abs_sub_le_iff]
    constructor <;> norm_num

/-- On the tie chain the sort keeps input order. -/
lemma compare_cyc :
    compareStrategies [cycA, cycB, cycC] =
      .ok (compareOutput cycA [cycB, cycC]) := by
  have hsort : stableSortB cmpLe ([cycA, cycB, cycC].filter (fun r => r.success)) =
      [cycA, cycB, cycC] := by
    rw [show ([cycA, cycB, cycC].filter (fun r => r.success)) =
      [cycA, cycB, cycC] from rfl]
    simp [stableSortB, orderedInsertB, cmpLe_cycBC, cmpLe_cycAB]
  simp [compareStrategies, hsort]

/-! ### Claim theorems -/

/-- C2 (amended): every failure path actually taken by the runner — a
delegate of the data, model or training phase rejecting or returning
`success: false`, the evaluation delegate rejecting, or the
cancellation signal triggering before the last phase check — yields an
`ExecutionResult` with `success = false`, the failure-sentinel metrics,
no model handle, and a captured error message.  (The evaluation
delegate's `success` flag is not examined by the source, see the
counterexample.) -/
theorem C2_runner_failure_normalized (plan : OptimizationPlan) (env : StrategyEnv)
    (reg : List String)
    (hfail : env.abortAt ≤ 3 ∨ delegateFails env.dataOutcome ∨
      delegateFails env.modelOutcome ∨ delegateFails env.trainingOutcome ∨
      (∃ m, env.evalOutcome = Except.error m)) :
    (executeSingleStrategy plan env reg).result.success = false ∧
      (executeSingleStrategy plan env reg).result.finalMetrics = failureMetrics ∧
      (executeSingleStrategy plan env reg).result.model = none ∧
      ∃ m, (executeSingleStrategy plan env reg).result.error = some m := by
  have hs := ess_fail_of plan env reg hfail
  rcases ess_result_cases plan env reg with ⟨m, hm⟩ | htrue
  · rw [hm]
    exact ⟨rfl, rfl, rfl, m, rfl⟩
  · rw [htrue] at hs
    exact absurd hs (by simp)

/-- C2 witness: the data delegate rejecting is such a failure path. -/
theorem C2_runner_failure_normalized_witness :
    (executeSingleStrategy wplan1 dataRejectEnv []).result.success = false ∧
      (executeSingleStrategy wplan1 dataRejectEnv []).result.finalMetrics =
        failureMetrics ∧
      (executeSingleStrategy wplan1 dataRejectEnv []).result.model = none ∧
      ∃ m, (executeSingleStrategy wplan1 dataRejectEnv []).result.error = some m :=
  C2_runner_failure_normalized wplan1 dataRejectEnv []
    (Or.inr (Or.inl (Or.inl ⟨"boom", rfl⟩)))

/-- C2 counterexample: the claim as stated is false — when the
evaluation delegate fulfills with `success: false` (a failure path in
the claim's enumeration), the source never checks that flag and
returns a result with `success = true`. -/
theorem C2_runner_failure_counterexample :
    evalFlagEnv.evalOutcome = Except.ok { okAgent with success := false } ∧
      (executeSingleStrategy wplan1 evalFlagEnv []).result.success = true :=
  ⟨rfl, rfl⟩

/-- C6 (amended): on any failure path the runner emits exactly one
`failed` terminal progress event, and its phase label is always
`evaluation` — the literal in the catch block — regardless of which
phase failed. -/
theorem C6_failed_event_label (plan : OptimizationPlan) (env : StrategyEnv)
    (reg : List String)
    (hfail : env.abortAt ≤ 3 ∨ delegateFails env.dataOutcome ∨
      delegateFails env.modelOutcome ∨ delegateFails env.trainingOutcome ∨
      (∃ m, env.evalOutcome = Except.error m)) :
    ∃ m, failedEvents (executeSingleStrategy plan env reg).events =
        [failedEvent plan m] ∧ (failedEvent plan m).phase = Phase.evaluation := by
  have hs := ess_fail_of plan env reg hfail
  obtain ⟨m, hm⟩ := ess_failed_events plan env reg hs
  exact ⟨m, hm, rfl⟩

/-- C6 witness: a rejection of the data delegate produces exactly one
failed event, labeled `evaluation`. -/
theorem C6_failed_event_label_witness :
    ∃ m, failedEvents (executeSingleStrategy wplan1 dataRejectEnv []).events =
        [failedEvent wplan1 m] ∧ (failedEvent wplan1 m).phase = Phase.evaluation :=
  C6_failed_event_label wplan1 dataRejectEnv []
    (Or.inr (Or.inl (Or.inl ⟨"boom", rfl⟩)))

/-- C6 counterexample: a failure during the data phase yields a failed
event labeled `evaluation`, not `data` as the claim states. -/
theorem C6_failed_event_label_counterexample :
    failedEvents (executeSingleStrategy wplan1 dataRejectEnv []).events =
        [failedEvent wplan1 "boom"] ∧
      (failedEvent wplan1 "boom").phase ≠ Phase.data :=
  ⟨rfl, by decide⟩

/-- C7 (amended): when the cancellation token is not yet triggered,
every `executePhase` invocation publishes exactly one or two progress
events — a `running` event with progress 25 first, followed by a
`completed` event with progress 100 exactly when the delegated work
returns normally.  (With the token already triggered it publishes
none, see the counterexample.) -/
theorem C7_phase_event_count (ph : Phase) (plan : OptimizationPlan)
    (w : Except String AgentResult) :
    (executePhase ph plan w false).events =
        runningEvent plan ph ::
          (match w with
            | .ok _ => [completedEvent plan ph]
            | .error _ => []) ∧
      ((executePhase ph plan w false).events.length = 1 ∨
        (executePhase ph plan w false).events.length = 2) := by
  cases w <;> simp [executePhase]

/-- C7 counterexample: an invocation with the token already triggered
publishes zero events, contradicting "exactly one or two" for every
invocation. -/
theorem C7_phase_event_count_counterexample :
    (executePhase Phase.data wplan1 (Except.ok okAgent) true).events.length = 0 :=
  rfl

/-- C8: if the strategy's cancellation token is already triggered when
`executePhase` is called, it fails immediately with the cancellation
error `'Execution aborted'` without invoking the delegated work
function. -/
theorem C8_phase_cancellation_precondition (ph : Phase) (plan : OptimizationPlan)
    (w : Except String AgentResult) :
    executePhase ph plan w true =
      { outcome := .error "Execution aborted", events := [], workInvoked := false } :=
  rfl

/-- C9: after a strategy run returns — on every exit path — the
active-executions registry holds no entry for that strategy id and the
timeout timer has been cleared. -/
theorem C9_registry_cleanup (plan : OptimizationPlan) (env : StrategyEnv)
    (reg : List String) :
    plan.strategyId ∉ (executeSingleStrategy plan env reg).registry ∧
      (executeSingleStrategy plan env reg).timeoutCleared = true := by
  constructor
  · rw [ess_registry]
    simp [regDelete, List.mem_filter]
  · exact ess_timeoutCleared plan env reg

/-- C1: for every non-empty plan list and `maxConcurrent ≥ 1` with
early stop unset, `executeStrategies` returns exactly one
`ExecutionResult` per input plan, and the result at position `i`
carries the strategy id of the plan at position `i`. -/
theorem C1_one_result_per_plan (plans : List OptimizationPlan) (opts : ExecOptions)
    (env : SchedulerEnv) (reg : List String)
    (hne : plans ≠ []) (hmc : 1 ≤ opts.maxConcurrent)
    (hes : opts.earlyStopOnSuccess = false) :
    (executeStrategies plans opts env reg).results.length = plans.length ∧
      ∀ i (hi : i < plans.length),
        ((executeStrategies plans opts env reg).results.get? i).map
            (fun r => r.strategyId) =
          some (plans.get ⟨i, hi⟩).strategyId := by
  rw [executeStrategies_results plans opts env reg hmc hes]
  refine ⟨List.length_map _ _, ?_⟩
  intro i hi
  rw [List.get?_map, List.get?_eq_get hi]
  simp [settleResultOf_strategyId]

/-- C1 witness: two plans, `maxConcurrent = 2`. -/
theorem C1_one_result_per_plan_witness :
    (executeStrategies [wplan1, wplan2] { maxConcurrent := 2 } schedEnvB
        []).results.length = 2 ∧
      ((executeStrategies [wplan1, wplan2] { maxConcurrent := 2 } schedEnvB
            []).results.get? 0).map (fun r => r.strategyId) = some "s1" ∧
      ((executeStrategies [wplan1, wplan2] { maxConcurrent := 2 } schedEnvB
            []).results.get? 1).map (fun r => r.strategyId) = some "s2" := by
  have h := C1_one_result_per_plan [wplan1, wplan2] { maxConcurrent := 2 }
    schedEnvB [] (by simp) (by norm_num) rfl
  refine ⟨h.1, ?_, ?_⟩
  · simpa using h.2 0 (by norm_num)
  · simpa using h.2 1 (by norm_num)

/-- C3: if the promise of the strategy at position `j` rejects, the
scheduler records for that slot a failure result keyed by that plan's
strategy id with the sentinel metrics and the rejection reason (the
rejection is absorbed, never re-raised — the scheduler is a total
function), and the results of every sibling strategy are exactly what
they would be under any environment that differs only in that
strategy's behaviour. -/
theorem C3_rejection_isolated (plans : List OptimizationPlan) (opts : ExecOptions)
    (env env' : SchedulerEnv) (reg reg' : List String) (j : Nat)
    (hj : j < plans.length) (reason : Option String)
    (hmc : 1 ≤ opts.maxConcurrent) (hes : opts.earlyStopOnSuccess = false)
    (hbj : env.behaviour (plans.get ⟨j, hj⟩).strategyId = .reject reason)
    (hagree : ∀ s, s ≠ (plans.get ⟨j, hj⟩).strategyId →
      env'.behaviour s = env.behaviour s) :
    (executeStrategies plans opts env reg).results.get? j =
        some (rejectionResult (plans.get ⟨j, hj⟩) reason) ∧
      ∀ k (hk : k < plans.length), k ≠ j →
        (plans.get ⟨k, hk⟩).strategyId ≠ (plans.get ⟨j, hj⟩).strategyId →
        (executeStrategies plans opts env reg).results.get? k =
          (executeStrategies plans opts env' reg').results.get? k := by
  rw [executeStrategies_results plans opts env reg hmc hes,
    executeStrategies_results plans opts env' reg' hmc hes]
  constructor
  · rw [List.get?_map, List.get?_eq_get hj]
    have hrj : settleResultOf env (plans.get ⟨j, hj⟩) =
        rejectionResult (plans.get ⟨j, hj⟩) reason := by
      unfold settleResultOf settledToResult settledOf
      rw [hbj]
    rw [Option.map_some', hrj]
  · intro k hk _ hid
    rw [List.get?_map, List.get?_map, List.get?_eq_get hk]
    have heq : settleResultOf env' (plans.get ⟨k, hk⟩) =
        settleResultOf env (plans.get ⟨k, hk⟩) := by
      unfold settleResultOf settledToResult settledOf
      rw [hagree _ hid]
    rw [Option.map_some', Option.map_some', heq]

/-- C3 witness: strategy `s2` rejects with reason `crash`; slot 1 holds
the keyed failure result and slot 0 agrees with the rejection-free
environment. -/
theorem C3_rejection_isolated_witness :
    (executeStrategies [wplan1, wplan2] {} schedEnvA []).results.get? 1 =
        some (rejectionResult wplan2 (some "crash")) ∧
      (executeStrategies [wplan1, wplan2] {} schedEnvA []).results.get? 0 =
        (executeStrategies [wplan1, wplan2] {} schedEnvB []).results.get? 0 := by
  have h := C3_rejection_isolated [wplan1, wplan2] {} schedEnvA schedEnvB [] []
    1 (by norm_num) (some "crash") (by norm_num) rfl
    rfl
    (by
      intro s hs
      have hs2 : s ≠ "s2" := hs
      simp [schedEnvA, schedEnvB, hs2])
  exact ⟨h.1, h.2 0 (by norm_num) (by norm_num) (by decide)⟩

/-- C10: for an empty plans list, `executeStrategies` returns an empty
result array, publishes no progress event, invokes no phase delegate,
and leaves the registry untouched without firing the cancellation
sweep. -/
theorem C10_empty_plans (opts : ExecOptions) (env : SchedulerEnv)
    (reg : List String) :
    (executeStrategies [] opts env reg).results = [] ∧
      (executeStrategies [] opts env reg).events = [] ∧
      (executeStrategies [] opts env reg).invocations = [] ∧
      (executeStrategies [] opts env reg).registry = reg ∧
      (executeStrategies [] opts env reg).cancelFired = false := by
  have h : createBatches ([] : List OptimizationPlan) opts.maxConcurrent = [] := by
    simp [createBatches]
  rw [executeStrategies, h]
  exact ⟨rfl, rfl, rfl, rfl, rfl⟩

/-- C4: with early stop enabled and the first qualifying slot
(successful with accuracy ≥ 0.95) at position `j`, `executeStrategies`
fires the cancellation sweep over every still-registered execution
(clearing the registry), returns exactly the results accumulated
through position `j` without processing further batches, and the phase
delegates of strategies in later unprocessed batches are never
invoked. -/
theorem C4_early_stop (plans : List OptimizationPlan) (opts : ExecOptions)
    (env : SchedulerEnv) (reg : List String) (j : Nat) (hj : j < plans.length)
    (hes : opts.earlyStopOnSuccess = true) (hmc : 1 ≤ opts.maxConcurrent)
    (hq : qualR (settleResultOf env (plans.get ⟨j, hj⟩)) = true)
    (hfirst : ∀ k (hk : k < j),
      qualR (settleResultOf env (plans.get ⟨k, by omega⟩)) = false)
    (hnodup : (plans.map (fun p => p.strategyId)).Nodup) :
    (executeStrategies plans opts env reg).results =
        (plans.take (j + 1)).map (settleResultOf env) ∧
      (executeStrategies plans opts env reg).cancelFired = true ∧
      (executeStrategies plans opts env reg).registry = [] ∧
      ∀ p ∈ plans.drop ((j / opts.maxConcurrent + 1) * opts.maxConcurrent),
        ∀ q ∈ (executeStrategies plans opts env reg).invocations,
          q.1 ≠ p.strategyId := by
  obtain ⟨m, hm⟩ : ∃ m, opts.maxConcurrent = m + 1 :=
    ⟨opts.maxConcurrent - 1, by omega⟩
  rw [executeStrategies, hes, hm]
  obtain ⟨h1, h2, h3, h4⟩ := runBatches_earlyStop env m plans reg j hj hq hfirst
  refine ⟨h1, h2, h3, ?_⟩
  intro p hp q hq_mem hqp
  have hin := h4 q hq_mem
  rw [hqp] at hin
  have hplans : plans.map (fun p => p.strategyId) =
      (plans.take ((j / (m + 1) + 1) * (m + 1))).map (fun p => p.strategyId) ++
        (plans.drop ((j / (m + 1) + 1) * (m + 1))).map (fun p => p.strategyId) := by
    rw [← List.map_append, List.take_append_drop]
  rw [hplans] at hnodup
  exact (List.nodup_append.1 hnodup).2.2 hin (List.mem_map_of_mem _ hp)

/-- C4 witness: two plans in singleton batches; the first reaches
accuracy 0.96, so only its result is returned and the sweep fires. -/
theorem C4_early_stop_witness :
    (executeStrategies [wplan1, wplan2]
          { maxConcurrent := 1, earlyStopOnSuccess := true } schedEnvB
          []).results = [settleResultOf schedEnvB wplan1] ∧
      (executeStrategies [wplan1, wplan2]
          { maxConcurrent := 1, earlyStopOnSuccess := true } schedEnvB
          []).cancelFired = true ∧
      (executeStrategies [wplan1, wplan2]
          { maxConcurrent := 1, earlyStopOnSuccess := true } schedEnvB
          []).registry = [] := by
  have h := C4_early_stop [wplan1, wplan2]
    { maxConcurrent := 1, earlyStopOnSuccess := true } schedEnvB [] 0
    (by norm_num) rfl (by norm_num)
    (by
      show qualR (settleResultOf schedEnvB wplan1) = true
      unfold qualR
      rw [show (settleResultOf schedEnvB wplan1).success = true from rfl,
        show (settleResultOf schedEnvB wplan1).finalMetrics.accuracy = 24/25 from rfl]
      simp only [Bool.true_and, decide_eq_true_eq]
      norm_num)
    (fun k hk => absurd hk (by omega)) (by decide)
  exact ⟨h.1, h.2.1, h.2.2.1⟩

/-- C5 (amended): provided the comparator's tie relation (accuracies
within 0.01 of each other) is transitive across the successful results,
`compareStrategies` ranks every pair in order: tied pairs by training
time ascending, non-tied pairs by accuracy descending, with `best` the
first element of the ranking; and on the claim's example (accuracies
0.901/0.905 with times 100/80) the time-80 result ranks first.  When
tie chains span more than 0.01 the comparator is inconsistent and the
accuracy-descending property fails, see the counterexample. -/
theorem C5_comparator_ranking (results : List ExecutionResult)
    (H : ∀ x ∈ results.filter (fun r => r.success),
      ∀ y ∈ results.filter (fun r => r.success),
      ∀ z ∈ results.filter (fun r => r.success),
      tie x y → tie y z → tie x z)
    (hne : results.filter (fun r => r.success) ≠ []) :
    ∃ out, compareStrategies results = .ok out ∧
      out.ranking.head? = some out.best ∧
      List.Pairwise rankedOrder out.ranking ∧
      ∃ exOut, compareStrategies [exSlow, exFast] = .ok exOut ∧
        exOut.best = exFast := by
  obtain ⟨b, rest, hr, heq⟩ := compareStrategies_ok results hne
  refine ⟨compareOutput b rest, heq, rfl, ?_, ?_⟩
  · have hp := stableSortB_pairwise cmpLe (results.filter (fun r => r.success))
      (fun x _ y _ => cmpLe_total x y) (cmpLe_trans_of_tie_trans _ H)
    rw [hr] at hp
    have hrk : (compareOutput b rest).ranking = b :: rest := rfl
    rw [hrk]
    exact hp.imp (fun h => rankedOrder_of_cmpLe _ _ h)
  · exact ⟨compareOutput exFast [exSlow], compare_example, rfl⟩

/-- C5 witness: the claim's own example pair. -/
theorem C5_comparator_ranking_witness :
    ∃ out, compareStrategies [exSlow, exFast] = .ok out ∧
      out.ranking.head? = some out.best ∧
      List.Pairwise rankedOrder out.ranking ∧
      ∃ exOut, compareStrategies [exSlow, exFast] = .ok exOut ∧
        exOut.best = exFast :=
  C5_comparator_ranking [exSlow, exFast]
    (by
      intro x hx y hy z hz _ _
      rw [show ([exSlow, exFast].filter (fun r => r.success)) =
        [exSlow, exFast] from rfl] at hx hz
      fin_cases hx <;> fin_cases hz <;>
        simp [tie, exSlow, exFast, abs_sub_le_iff] <;> norm_num)
    (by
      rw [show ([exSlow, exFast].filter (fun r => r.success)) =
        [exSlow, exFast] from rfl]
      simp)

/-- C5 counterexample: on a tie chain spanning more than 0.01
(accuracies 0.900/0.906/0.912 with times 1/5/10) the ranking keeps
input order, placing accuracy 0.900 first and 0.912 last although the
two differ by more than 0.01 with the smaller accuracy first — the
claimed accuracy-descending primary key is violated. -/
theorem C5_comparator_ranking_counterexample :
    (compareStrategies [cycA, cycB, cycC]).map
        (fun o => o.ranking.map (fun r => r.finalMetrics.accuracy)) =
      .ok [9/10, 453/500, 114/125] ∧
      (9/10 : Rat) + 1/100 < 114/125 ∧ (9/10 : Rat) < 114/125 := by
  refine ⟨?_, by norm_num, by norm_num⟩
  rw [compare_cyc]
  rfl

end AutoML
